import Mathlib

/-!
Shallow embedding of the qqwry IP-database engine (src/lib.rs, src/errors.rs).

The file is modelled as a `List Nat` of bytes.  The `File` handle is an
external collaborator (spec section 1): a `seek`+`read` of `n` bytes at
offset `o` into a zero-initialised buffer yields the bytes
`file[o], file[o+1], ...`, with `0` for every position at or past
end-of-file (the buffer keeps its zero initialiser when the read returns
fewer than `n` bytes).  `byteAt` captures exactly that.

Every read in the source is absolutely positioned: each `read_u24` call
happens immediately after a `read_mode off` (which seeks to `off` and
consumes one byte), so it reads at `off + 1`; the embedding passes those
resolved offsets explicitly instead of threading the OS file cursor.
-/

/-- Width of one index entry (`INDEX_LEN` in the source). -/
def INDEX_LEN : Nat := 7

/-- An IPv4 address as its four octets, `o0.o1.o2.o3` (std::net::Ipv4Addr). -/
structure Ipv4Addr where
  o0 : Nat
  o1 : Nat
  o2 : Nat
  o3 : Nat
deriving DecidableEq, Repr

/-- The engine's error values.  The source wraps plain strings; the two
messages produced by the core are modelled as constructors:
`notFound` for "couldn't find ip" and `wrongContent o` for
"Wrong content, in o". -/
inductive Error where
  | notFound : Error
  | wrongContent : Nat → Error
deriving DecidableEq, Repr

deriving instance DecidableEq for Except

/-- Mode tag (enum `Mode` in the source, constructor names kept). -/
inductive Mode where
  | RediectMode1 : Mode
  | RediectMode2 : Mode
  | Other : Mode
deriving DecidableEq, Repr

/-- `Mode::from` in the source (`from` is a Lean keyword, hence `fromByte`):
byte 1 selects `RediectMode1`, byte 2 `RediectMode2`, anything else `Other`. -/
def Mode.fromByte (mode : Nat) : Mode :=
  match mode with
  | 1 => Mode.RediectMode1
  | 2 => Mode.RediectMode2
  | _ => Mode.Other

/-- Header: the two offsets bounding the index table (fields `start`/`end`
in the source; `end` is a Lean keyword, hence `end_`). -/
structure Header where
  start : Nat
  end_ : Nat
deriving DecidableEq, Repr

/-- A decoded record.  The source decodes `country`/`area` from GBK via the
external `encoding_rs` decoder; the embedding keeps the raw byte sequences
the engine hands to that decoder. -/
structure Record where
  ip : Ipv4Addr
  country : List Nat
  area : List Nat
deriving DecidableEq, Repr

/-- The database handle: the file's bytes, the decoded header, and the
iterator cursor `position`.  The OS file-cursor is state of the external
`File` collaborator and is not part of the handle model. -/
structure IPDB where
  file : List Nat
  header : Header
  position : Nat
deriving DecidableEq, Repr

/-- Byte of the file visible at offset `i` through a zero-initialised read
buffer: the stored byte inside the file, `0` at or past end-of-file. -/
def byteAt (file : List Nat) (i : Nat) : Nat :=
  file.getD i 0

/-- The zero-initialised `n`-byte buffer after `seek(offset)` + `read`:
the available bytes, padded with the buffer's zeros. -/
def readBuf (file : List Nat) (offset n : Nat) : List Nat :=
  let bs := (file.drop offset).take n
  bs ++ List.replicate (n - bs.length) 0

/-- Number of bytes a `read` of `n` bytes at `offset` actually returns. -/
def bytesRead (file : List Nat) (offset n : Nat) : Nat :=
  min n (file.length - offset)

/-- Little-endian u32 decode of `buf[off..off+4]`
(`read_u32::<LittleEndian>` from the byteorder crate). -/
def readLE32 (file : List Nat) (off : Nat) : Nat :=
  byteAt file off + 256 * byteAt file (off + 1) +
    65536 * byteAt file (off + 2) + 16777216 * byteAt file (off + 3)

/-- `array3u8tou32`: 3-byte little-endian decode with the source's masks. -/
def array3u8tou32 (data : List Nat) : Nat :=
  let i := data.getD 0 0 &&& 0xff
  let i := i ||| ((data.getD 1 0 <<< 8) &&& 0xff00)
  let i := i ||| ((data.getD 2 0 <<< 16) &&& 0xff0000)
  i

/-- `read_u24` resolved to an absolute offset: the source call reads the
three bytes at the current cursor, which at every call site is the byte
right after a just-probed mode byte. -/
def read_u24 (file : List Nat) (off : Nat) : Nat :=
  array3u8tou32 [byteAt file off, byteAt file (off + 1), byteAt file (off + 2)]

/-- `get_middle_offset`: entry-aligned floor midpoint of `[start, end_]`. -/
def get_middle_offset (start end_ : Nat) : Nat :=
  let records := ((end_ - start) / INDEX_LEN) >>> 1
  start + records * INDEX_LEN

/-- `convert_ipv4_to_u32`: little-endian packing of the four octets, with
the source's shift-and-mask steps. -/
def convert_ipv4_to_u32 (ip : Ipv4Addr) : Nat :=
  let result := ip.o0
  let result := result ||| ((ip.o1 <<< 8) &&& 0xff00)
  let result := result ||| ((ip.o2 <<< 16) &&& 0xff0000)
  let result := result ||| ((ip.o3 <<< 24) &&& 0xff000000)
  result

/-- Modelled from the spec: `integerToAddress`, "the little-endian
unpacking inverse" of `addressToInteger` (spec sections 4.1 and 8).  The
source has no u32-to-address function (its `read_ip` builds the address
from raw file octets), so this codec direction follows the spec's words. -/
def integerToAddress (x : Nat) : Ipv4Addr :=
  ⟨x % 256, x / 256 % 256, x / 65536 % 256, x / 16777216 % 256⟩

/-- `Header::decode`: two little-endian u32 reads from the buffer; the
byteorder reads fail (an io error, mapped into `Error`) exactly when the
buffer holds fewer than 8 bytes, hence `none` in that case. -/
def Header.decode (bytes : List Nat) : Option Header :=
  if 8 ≤ bytes.length then some ⟨readLE32 bytes 0, readLE32 bytes 4⟩ else none

/-- `IPDB::new`: reads the first at-most-8 bytes of the file into a
zero-initialised 8-byte buffer and decodes the header from that buffer
(the number of bytes actually read is never checked).  OS open/read
failures abort the process and are outside the model; `none` would arise
only from `Header::decode` (whose `.unwrap` would also abort). -/
def IPDB.new (file : List Nat) : Option IPDB :=
  (Header.decode (readBuf file 0 8)).map fun header => ⟨file, header, 0⟩

/-- `read_ip`: the four raw bytes at `offset` as the record's address. -/
def read_ip (file : List Nat) (offset : Nat) : Ipv4Addr :=
  ⟨byteAt file offset, byteAt file (offset + 1),
    byteAt file (offset + 2), byteAt file (offset + 3)⟩

/-- `read_mode`: probe one byte at `offset` as a mode tag. -/
def read_mode (file : List Nat) (offset : Nat) : Mode :=
  Mode.fromByte (byteAt file offset)

/-- `read_string`: consume bytes from `offset` up to (excluding) the first
zero byte.  At or past end-of-file the zero-initialised 1-byte buffer
terminates the loop at once.  When some bytes remain but none of them is
zero the source re-reads the last byte forever (the end-of-file read
leaves the buffer unchanged); the claims treated here only concern
properly terminated strings, and the model returns the remaining bytes. -/
def read_string (file : List Nat) (offset : Nat) : List Nat :=
  (file.drop offset).takeWhile (fun b => b != 0)

/-- `read_area`: second mode probe at `offset`; on mode 1 or 2 follow the
24-bit pointer at `offset + 1` (the cursor after the probe), rejecting a
zero pointer; otherwise the area text starts at `offset` itself. -/
def read_area (file : List Nat) (offset : Nat) : Except Error (List Nat) :=
  match read_mode file offset with
  | Mode.RediectMode1 =>
      let area_offset := read_u24 file (offset + 1)
      if area_offset = 0 then Except.error (Error.wrongContent (offset + 1))
      else Except.ok (read_string file area_offset)
  | Mode.RediectMode2 =>
      let area_offset := read_u24 file (offset + 1)
      if area_offset = 0 then Except.error (Error.wrongContent (offset + 1))
      else Except.ok (read_string file area_offset)
  | Mode.Other => Except.ok (read_string file offset)

/-- `get_content`: decode the record at `offset` (mode probe at
`offset + 4`, the 24-bit reads at the cursor positions the source leaves
after each probe, then the area via `read_area`). -/
def get_content (file : List Nat) (offset : Nat) : Except Error Record :=
  let step : Except Error (List Nat × Nat) :=
    match read_mode file (offset + 4) with
    | Mode.RediectMode1 =>
        let country_offset := read_u24 file (offset + 5)
        match read_mode file country_offset with
        | Mode.RediectMode2 =>
            let c := read_u24 file (country_offset + 1)
            Except.ok (read_string file c, country_offset + 4)
        | _ =>
            let country := read_string file country_offset
            Except.ok (country, country_offset + country.length + 1)
    | Mode.RediectMode2 =>
        let country_offset := read_u24 file (offset + 5)
        let country := read_string file country_offset
        Except.ok (country, offset + 5 + country.length)
    | Mode.Other =>
        let country := read_string file (offset + 4)
        Except.ok (country, offset + 5 + country.length)
  match step with
  | Except.error e => Except.error e
  | Except.ok (country, area_origin) =>
      match read_area file area_origin with
      | Except.error e => Except.error e
      | Except.ok area => Except.ok ⟨read_ip file offset, country, area⟩

/-- The `search_index` loop with explicit fuel.  The result's first
component records the `(start, end_)` interval of every executed
iteration (its probe is `get_middle_offset start end_`); the second is
`none` when the fuel ran out before the loop returned, `some (ok o)` on
an exact index hit and `some (error notFound)` on convergence. -/
def search_go (file : List Nat) (ip_num : Nat) :
    Nat → Nat → Nat → List (Nat × Nat) × Option (Except Error Nat)
  | 0, _, _ => ([], none)
  | fuel + 1, start, end_ =>
      let mid := get_middle_offset start end_
      let mid_ip := readLE32 file mid
      if ip_num = mid_ip then
        ([(start, end_)], some (Except.ok (read_u24 file (mid + 4))))
      else if end_ - start = INDEX_LEN then
        ([(start, end_)], some (Except.error Error.notFound))
      else if mid_ip < ip_num then
        let r := search_go file ip_num fuel mid end_
        ((start, end_) :: r.1, r.2)
      else
        let r := search_go file ip_num fuel start mid
        ((start, end_) :: r.1, r.2)

/-- Fuel that provably suffices whenever the table is non-degenerate:
one more than the ceiling log2 of the entry count. -/
def searchFuel (h : Header) : Nat :=
  Nat.clog 2 ((h.end_ - h.start) / INDEX_LEN + 1) + 1

/-- `search_index` over the handle's header; `none` models the source
looping forever (reachable only for a degenerate `start = end_` table
with no exact hit). -/
def search_index (db : IPDB) (ip : Ipv4Addr) : Option (Except Error Nat) :=
  (search_go db.file (convert_ipv4_to_u32 ip) (searchFuel db.header)
    db.header.start db.header.end_).2

/-- `find`: index search then record decode.  The source takes `&mut self`
only for the OS file cursor; it assigns none of the handle's fields, so
the returned handle is the input one. -/
def IPDB.find (db : IPDB) (ip : Ipv4Addr) :
    IPDB × Option (Except Error Record) :=
  (db,
    match search_index db ip with
    | none => none
    | some (Except.error e) => some (Except.error e)
    | some (Except.ok offset) => some (get_content db.file offset))

/-- `iter_init`: position a fresh cursor at the table start; a cursor that
was already positioned is kept (the remaining body only re-seeks the OS
file cursor). -/
def iter_init (db : IPDB) : IPDB :=
  if db.position = 0 then { db with position := db.header.start } else db

/-- `iter_next`: read one 7-byte entry at `position`, advance `position`
by the number of bytes actually read, and decode the record at the
entry's 24-bit offset field. -/
def iter_next (db : IPDB) : IPDB × Except Error Record :=
  let n := bytesRead db.file db.position INDEX_LEN
  ({ db with position := db.position + n },
    get_content db.file (read_u24 db.file (db.position + 4)))

/-- `iter_has_next`: false exactly at one entry past the table's end. -/
def iter_has_next (db : IPDB) : Bool :=
  if db.position = db.header.end_ + INDEX_LEN then false else true

/-- The handle after `k` calls of `iter_next`. -/
def iterSteps (db : IPDB) : Nat → IPDB
  | 0 => db
  | k + 1 => (iter_next (iterSteps db k)).1

/-- Record decoding written from the words of the spec's mode table
(section 4.4, step 3): the refinement counterpart of `get_content`. -/
def decodeRecordSpec (file : List Nat) (recordOffset : Nat) :
    Except Error Record :=
  let m := byteAt file (recordOffset + 4)
  let step : List Nat × Nat :=
    if m = 1 then
      let p := read_u24 file (recordOffset + 5)
      if byteAt file p = 2 then
        let c := read_u24 file (p + 1)
        (read_string file c, p + 4)
      else
        let country := read_string file p
        (country, p + country.length + 1)
    else if m = 2 then
      let p := read_u24 file (recordOffset + 5)
      let country := read_string file p
      (country, recordOffset + 5 + country.length)
    else
      let country := read_string file (recordOffset + 4)
      (country, recordOffset + 5 + country.length)
  match read_area file step.2 with
  | Except.error e => Except.error e
  | Except.ok area => Except.ok ⟨read_ip file recordOffset, step.1, area⟩

/-! ### Helper lemmas -/

theorem search_go_succ (file : List Nat) (t fuel lo hi : Nat) :
    search_go file t (fuel + 1) lo hi =
      if t = readLE32 file (get_middle_offset lo hi) then
        ([(lo, hi)],
          some (Except.ok (read_u24 file (get_middle_offset lo hi + 4))))
      else if hi - lo = INDEX_LEN then
        ([(lo, hi)], some (Except.error Error.notFound))
      else if readLE32 file (get_middle_offset lo hi) < t then
        ((lo, hi) :: (search_go file t fuel (get_middle_offset lo hi) hi).1,
          (search_go file t fuel (get_middle_offset lo hi) hi).2)
      else
        ((lo, hi) :: (search_go file t fuel lo (get_middle_offset lo hi)).1,
          (search_go file t fuel lo (get_middle_offset lo hi)).2) := rfl

theorem search_go_ok (file : List Nat) (t : Nat) :
    ∀ fuel lo hi off, (search_go file t fuel lo hi).2 = some (Except.ok off) →
      ∃ p ∈ (search_go file t fuel lo hi).1,
        readLE32 file (get_middle_offset p.1 p.2) = t ∧
        off = read_u24 file (get_middle_offset p.1 p.2 + 4) := by
  intro fuel
  induction fuel with
  | zero => intro lo hi off h; simp [search_go] at h
  | succ fuel ih =>
    intro lo hi off h
    rw [search_go_succ] at h ⊢
    split_ifs at h ⊢ with h1 h2 h3
    · simp only [Option.some.injEq, Except.ok.injEq] at h
      exact ⟨(lo, hi), by simp, h1.symm, h.symm⟩
    · simp at h
    · obtain ⟨p, hp, hmatch, hoff⟩ := ih _ _ _ h
      exact ⟨p, by simp [hp], hmatch, hoff⟩
    · obtain ⟨p, hp, hmatch, hoff⟩ := ih _ _ _ h
      exact ⟨p, by simp [hp], hmatch, hoff⟩

theorem search_go_err (file : List Nat) (t : Nat) :
    ∀ fuel lo hi e, (search_go file t fuel lo hi).2 = some (Except.error e) →
      e = Error.notFound ∧
      (∀ p ∈ (search_go file t fuel lo hi).1,
        readLE32 file (get_middle_offset p.1 p.2) ≠ t) ∧
      ∃ p ∈ (search_go file t fuel lo hi).1,
        p.2 - p.1 = INDEX_LEN := by
  intro fuel
  induction fuel with
  | zero => intro lo hi e h; simp [search_go] at h
  | succ fuel ih =>
    intro lo hi e h
    rw [search_go_succ] at h ⊢
    split_ifs at h ⊢ with h1 h2 h3
    · simp at h
    · simp only [Option.some.injEq, Except.error.injEq] at h
      refine ⟨h.symm, ?_, (lo, hi), by simp, h2⟩
      intro p hp
      simp only [List.mem_singleton] at hp
      subst hp
      exact fun hc => h1 hc.symm
    · obtain ⟨he, hall, p, hp, hconv⟩ := ih _ _ _ h
      refine ⟨he, ?_, p, by simp [hp], hconv⟩
      intro q hq
      simp only [List.mem_cons] at hq
      rcases hq with rfl | hq
      · exact fun hc => h1 hc.symm
      · exact hall q hq
    · obtain ⟨he, hall, p, hp, hconv⟩ := ih _ _ _ h
      refine ⟨he, ?_, p, by simp [hp], hconv⟩
      intro q hq
      simp only [List.mem_cons] at hq
      rcases hq with rfl | hq
      · exact fun hc => h1 hc.symm
      · exact hall q hq

theorem search_go_conv (file : List Nat) (t fuel lo hi : Nat)
    (h7 : hi - lo = INDEX_LEN)
    (hne : t ≠ readLE32 file (get_middle_offset lo hi)) (hf : 0 < fuel) :
    (search_go file t fuel lo hi).2 = some (Except.error Error.notFound) := by
  obtain ⟨fuel, rfl⟩ := Nat.exists_eq_succ_of_ne_zero (Nat.pos_iff_ne_zero.mp hf)
  rw [search_go_succ]
  rw [if_neg hne, if_pos h7]

theorem search_go_match (file : List Nat) (t fuel lo hi : Nat)
    (heq : t = readLE32 file (get_middle_offset lo hi)) (hf : 0 < fuel) :
    (search_go file t fuel lo hi).2 =
      some (Except.ok (read_u24 file (get_middle_offset lo hi + 4))) := by
  obtain ⟨fuel, rfl⟩ := Nat.exists_eq_succ_of_ne_zero (Nat.pos_iff_ne_zero.mp hf)
  rw [search_go_succ, if_pos heq]

theorem get_middle_offset_eq (lo hi : Nat) :
    get_middle_offset lo hi = lo + (hi - lo) / 7 / 2 * 7 := by
  simp [get_middle_offset, INDEX_LEN, Nat.shiftRight_succ, Nat.shiftRight_zero]

theorem search_go_probes (file : List Nat) (t hs he : Nat) :
    ∀ fuel lo hi, hs ≤ lo → lo ≤ hi → hi ≤ he →
      INDEX_LEN ∣ (lo - hs) → INDEX_LEN ∣ (hi - lo) →
      ∀ p ∈ (search_go file t fuel lo hi).1,
        hs ≤ p.1 ∧ p.1 ≤ p.2 ∧ p.2 ≤ he ∧
        (∃ k, p.1 = hs + INDEX_LEN * k) ∧ (∃ k, p.2 = hs + INDEX_LEN * k) ∧
        hs ≤ get_middle_offset p.1 p.2 ∧ get_middle_offset p.1 p.2 ≤ he ∧
        (∃ k, get_middle_offset p.1 p.2 = hs + INDEX_LEN * k) := by
  intro fuel
  induction fuel with
  | zero => intro lo hi _ _ _ _ _ p hp; simp [search_go] at hp
  | succ fuel ih =>
    intro lo hi hlo hlh hhi hdlo hdhi p hp
    obtain ⟨a, ha⟩ := hdlo
    obtain ⟨d, hd⟩ := hdhi
    simp only [INDEX_LEN] at ha hd
    have hself : hs ≤ lo ∧ lo ≤ hi ∧ hi ≤ he ∧
        (∃ k, lo = hs + INDEX_LEN * k) ∧ (∃ k, hi = hs + INDEX_LEN * k) ∧
        hs ≤ get_middle_offset lo hi ∧ get_middle_offset lo hi ≤ he ∧
        (∃ k, get_middle_offset lo hi = hs + INDEX_LEN * k) := by
      rw [get_middle_offset_eq]
      simp only [INDEX_LEN]
      refine ⟨hlo, hlh, hhi, ⟨a, by omega⟩, ⟨a + d, by omega⟩, by omega, by omega,
        ⟨a + d / 2, by omega⟩⟩
    have hmid1 : lo ≤ get_middle_offset lo hi := by
      rw [get_middle_offset_eq]; omega
    have hmid2 : get_middle_offset lo hi ≤ hi := by
      rw [get_middle_offset_eq]; omega
    rw [search_go_succ] at hp
    split_ifs at hp with h1 h2 h3
    · simp only [List.mem_singleton] at hp; subst hp; exact hself
    · simp only [List.mem_singleton] at hp; subst hp; exact hself
    · simp only [List.mem_cons] at hp
      rcases hp with rfl | hp
      · exact hself
      · refine ih (get_middle_offset lo hi) hi ?_ hmid2 hhi ?_ ?_ p hp
        · omega
        · rw [get_middle_offset_eq]; exact ⟨a + d / 2, by simp [INDEX_LEN]; omega⟩
        · rw [get_middle_offset_eq]; exact ⟨d - d / 2, by simp [INDEX_LEN]; omega⟩
    · simp only [List.mem_cons] at hp
      rcases hp with rfl | hp
      · exact hself
      · refine ih lo (get_middle_offset lo hi) hlo hmid1 ?_ ⟨a, by simp [INDEX_LEN]; omega⟩ ?_ p hp
        · omega
        · rw [get_middle_offset_eq]; exact ⟨d / 2, by simp [INDEX_LEN]; omega⟩

theorem search_go_terminates (file : List Nat) (t : Nat) :
    ∀ fuel lo hi, lo < hi → INDEX_LEN ∣ (hi - lo) →
      Nat.clog 2 ((hi - lo) / INDEX_LEN) + 1 ≤ fuel →
      ∃ r, (search_go file t fuel lo hi).2 = some r := by
  intro fuel
  induction fuel with
  | zero => intro lo hi _ _ hf; omega
  | succ fuel ih =>
    intro lo hi hlh hdvd hf
    rw [search_go_succ]
    split_ifs with h1 h2 h3
    · exact ⟨_, rfl⟩
    · exact ⟨_, rfl⟩
    · obtain ⟨d, hd⟩ := hdvd
      simp only [INDEX_LEN] at hd h2
      have hd2 : 2 ≤ d := by omega
      have hmid : get_middle_offset lo hi = lo + d / 2 * 7 := by
        rw [get_middle_offset_eq, hd]
        congr 2
        omega
      have hw : hi - get_middle_offset lo hi = 7 * (d - d / 2) := by omega
      have hrec := ih (get_middle_offset lo hi) hi (by omega)
        ⟨d - d / 2, by simpa [INDEX_LEN] using hw⟩
      simp only [INDEX_LEN, hw] at hrec
      have hclog : Nat.clog 2 (7 * (d - d / 2) / 7) + 1 ≤ fuel := by
        have h75 : 7 * (d - d / 2) / 7 = d - d / 2 := by omega
        rw [h75]
        have hstep : Nat.clog 2 d = Nat.clog 2 ((d + 1) / 2) + 1 :=
          Nat.clog_of_two_le (by omega) hd2
        have hdd : d - d / 2 = (d + 1) / 2 := by omega
        rw [hdd]
        have hfuel' : Nat.clog 2 ((hi - lo) / 7) + 1 ≤ fuel + 1 := by
          simpa [INDEX_LEN] using hf
        rw [hd] at hfuel'
        have h76 : 7 * d / 7 = d := by omega
        rw [h76, hstep] at hfuel'
        omega
      obtain ⟨r, hr⟩ := hrec hclog
      exact ⟨r, by simpa using hr⟩
    · obtain ⟨d, hd⟩ := hdvd
      simp only [INDEX_LEN] at hd h2
      have hd2 : 2 ≤ d := by omega
      have hmid : get_middle_offset lo hi = lo + d / 2 * 7 := by
        rw [get_middle_offset_eq, hd]
        congr 2
        omega
      have hw : get_middle_offset lo hi - lo = 7 * (d / 2) := by omega
      have hrec := ih lo (get_middle_offset lo hi) (by omega)
        ⟨d / 2, by simpa [INDEX_LEN] using hw⟩
      simp only [INDEX_LEN, hw] at hrec
      have hclog : Nat.clog 2 (7 * (d / 2) / 7) + 1 ≤ fuel := by
        have h75 : 7 * (d / 2) / 7 = d / 2 := by omega
        rw [h75]
        have hstep : Nat.clog 2 d = Nat.clog 2 ((d + 1) / 2) + 1 :=
          Nat.clog_of_two_le (by omega) hd2
        have hmono : Nat.clog 2 (d / 2) ≤ Nat.clog 2 ((d + 1) / 2) :=
          Nat.clog_mono_right 2 (by omega)
        have hfuel' : Nat.clog 2 ((hi - lo) / 7) + 1 ≤ fuel + 1 := by
          simpa [INDEX_LEN] using hf
        rw [hd] at hfuel'
        have h76 : 7 * d / 7 = d := by omega
        rw [h76, hstep] at hfuel'
        omega
      obtain ⟨r, hr⟩ := hrec hclog
      exact ⟨r, by simpa using hr⟩

set_option maxRecDepth 4096

theorem shl8_and_mask : ∀ o, o < 256 → (o <<< 8) &&& 0xff00 = 2 ^ 8 * o := by
  decide

theorem shl16_and_mask : ∀ o, o < 256 → (o <<< 16) &&& 0xff0000 = 2 ^ 16 * o := by
  decide

theorem shl24_and_mask : ∀ o, o < 256 → (o <<< 24) &&& 0xff000000 = 2 ^ 24 * o := by
  decide

theorem lor_two_pow_mul_eq_add {n : Nat} (a b : Nat) (h : a < 2 ^ n) :
    a ||| 2 ^ n * b = a + 2 ^ n * b := by
  apply Nat.eq_of_testBit_eq
  intro j
  rw [Nat.testBit_lor, Nat.add_comm, Nat.testBit_mul_pow_two_add b h j,
    Nat.testBit_mul_pow_two]
  by_cases hj : j < n
  · simp [hj, Nat.not_le_of_lt hj]
  · have hja : Nat.testBit a j = false :=
      Nat.testBit_lt_two_pow
        (lt_of_lt_of_le h (Nat.pow_le_pow_right (by norm_num) (Nat.le_of_not_lt hj)))
    simp [hj, hja, Nat.le_of_not_lt hj]

theorem convert_eq_sum (ip : Ipv4Addr) (h0 : ip.o0 < 256) (h1 : ip.o1 < 256)
    (h2 : ip.o2 < 256) (h3 : ip.o3 < 256) :
    convert_ipv4_to_u32 ip =
      ip.o0 + 256 * ip.o1 + 65536 * ip.o2 + 16777216 * ip.o3 := by
  simp only [convert_ipv4_to_u32]
  rw [shl8_and_mask _ h1, shl16_and_mask _ h2, shl24_and_mask _ h3]
  rw [lor_two_pow_mul_eq_add ip.o0 ip.o1 (show ip.o0 < 2 ^ 8 by norm_num; omega)]
  rw [lor_two_pow_mul_eq_add _ ip.o2 (show ip.o0 + 2 ^ 8 * ip.o1 < 2 ^ 16 by norm_num; omega)]
  rw [lor_two_pow_mul_eq_add _ ip.o3
    (show ip.o0 + 2 ^ 8 * ip.o1 + 2 ^ 16 * ip.o2 < 2 ^ 24 by norm_num; omega)]
  norm_num

theorem convert_unmasked_eq_sum (ip : Ipv4Addr) (h0 : ip.o0 < 256)
    (h1 : ip.o1 < 256) (h2 : ip.o2 < 256) (_h3 : ip.o3 < 256) :
    ip.o0 ||| (ip.o1 <<< 8) ||| (ip.o2 <<< 16) ||| (ip.o3 <<< 24) =
      ip.o0 + 256 * ip.o1 + 65536 * ip.o2 + 16777216 * ip.o3 := by
  rw [Nat.shiftLeft_eq, Nat.shiftLeft_eq, Nat.shiftLeft_eq,
    Nat.mul_comm ip.o1, Nat.mul_comm ip.o2, Nat.mul_comm ip.o3]
  rw [lor_two_pow_mul_eq_add ip.o0 ip.o1 (show ip.o0 < 2 ^ 8 by norm_num; omega)]
  rw [lor_two_pow_mul_eq_add _ ip.o2 (show ip.o0 + 2 ^ 8 * ip.o1 < 2 ^ 16 by norm_num; omega)]
  rw [lor_two_pow_mul_eq_add _ ip.o3
    (show ip.o0 + 2 ^ 8 * ip.o1 + 2 ^ 16 * ip.o2 < 2 ^ 24 by norm_num; omega)]
  norm_num

/-- C8: the address codec is a bijection between IPv4 addresses and
32-bit integers: `convert_ipv4_to_u32` packs the octets as
`o0 ||| o1 <<< 8 ||| o2 <<< 16 ||| o3 <<< 24`, and it is mutually
inverse with the little-endian unpacking `integerToAddress`. -/
theorem address_codec_bijection :
    (∀ ip : Ipv4Addr, ip.o0 < 256 → ip.o1 < 256 → ip.o2 < 256 → ip.o3 < 256 →
      convert_ipv4_to_u32 ip =
        ip.o0 ||| (ip.o1 <<< 8) ||| (ip.o2 <<< 16) ||| (ip.o3 <<< 24)) ∧
    (∀ x : Nat, x < 4294967296 →
      convert_ipv4_to_u32 (integerToAddress x) = x) ∧
    (∀ ip : Ipv4Addr, ip.o0 < 256 → ip.o1 < 256 → ip.o2 < 256 → ip.o3 < 256 →
      integerToAddress (convert_ipv4_to_u32 ip) = ip) := by
  refine ⟨?_, ?_, ?_⟩
  · intro ip h0 h1 h2 h3
    rw [convert_eq_sum ip h0 h1 h2 h3, convert_unmasked_eq_sum ip h0 h1 h2 h3]
  · intro x hx
    rw [convert_eq_sum]
    · simp only [integerToAddress]
      omega
    all_goals simp only [integerToAddress]
    all_goals omega
  · intro ip h0 h1 h2 h3
    rw [convert_eq_sum ip h0 h1 h2 h3]
    cases ip with
    | mk o0 o1 o2 o3 =>
      simp only at h0 h1 h2 h3 ⊢
      simp only [integerToAddress, Ipv4Addr.mk.injEq]
      refine ⟨by omega, by omega, by omega, by omega⟩

/-- Witness for C8 at concrete inputs. -/
theorem address_codec_bijection_witness :
    convert_ipv4_to_u32 (integerToAddress 3232235777) = 3232235777 ∧
    integerToAddress (convert_ipv4_to_u32 ⟨8, 8, 8, 8⟩) = ⟨8, 8, 8, 8⟩ ∧
    convert_ipv4_to_u32 ⟨192, 168, 1, 1⟩ =
      192 ||| (168 <<< 8) ||| (1 <<< 16) ||| (1 <<< 24) :=
  ⟨address_codec_bijection.2.1 3232235777 (by norm_num),
   address_codec_bijection.2.2 ⟨8, 8, 8, 8⟩ (by norm_num) (by norm_num)
     (by norm_num) (by norm_num),
   address_codec_bijection.1 ⟨192, 168, 1, 1⟩ (by norm_num) (by norm_num)
     (by norm_num) (by norm_num)⟩

theorem array3u8tou32_lt (data : List Nat) : array3u8tou32 data < 16777216 := by
  simp only [array3u8tou32]
  have e : (16777216 : Nat) = 2 ^ 24 := by norm_num
  rw [e]
  apply Nat.or_lt_two_pow
  · apply Nat.or_lt_two_pow
    · exact lt_of_le_of_lt Nat.and_le_right (by norm_num)
    · exact lt_of_le_of_lt Nat.and_le_right (by norm_num)
  · exact lt_of_le_of_lt Nat.and_le_right (by norm_num)

/-- C10: every value of the 3-byte decode is below 2^24, hence so is
every record offset returned by the index search, every redirect
pointer (`read_u24`), and the record offset `iter_next` hands to
`get_content`. -/
theorem decoded_offsets_below_2pow24 :
    (∀ data : List Nat, array3u8tou32 data < 16777216) ∧
    (∀ file off, read_u24 file off < 16777216) ∧
    (∀ file t fuel lo hi off,
      (search_go file t fuel lo hi).2 = some (Except.ok off) →
        off < 16777216) ∧
    (∀ db : IPDB, ∃ o, o < 16777216 ∧
      iter_next db =
        ({ db with position := db.position + bytesRead db.file db.position INDEX_LEN },
          get_content db.file o)) := by
  refine ⟨array3u8tou32_lt, fun file off => array3u8tou32_lt _, ?_, ?_⟩
  · intro file t fuel lo hi off h
    obtain ⟨p, _, _, hoff⟩ := search_go_ok file t fuel lo hi off h
    rw [hoff]
    exact array3u8tou32_lt _
  · intro db
    exact ⟨read_u24 db.file (db.position + 4), array3u8tou32_lt _, rfl⟩

/-- C1: the index search returns an offset only from an exactly matching
probed entry (the entry's little-endian address equals the target), it
fails only after probing a converged interval of width 7 with every
probe having missed, and at a converged mismatching interval it does
fail; when the probe matches it returns that entry's 24-bit offset. -/
theorem search_index_exact_match_only (file : List Nat) (ip : Ipv4Addr)
    (fuel lo hi : Nat) :
    let t := convert_ipv4_to_u32 ip
    (∀ off, (search_go file t fuel lo hi).2 = some (Except.ok off) →
      ∃ p ∈ (search_go file t fuel lo hi).1,
        readLE32 file (get_middle_offset p.1 p.2) = t ∧
        off = read_u24 file (get_middle_offset p.1 p.2 + 4)) ∧
    (∀ e, (search_go file t fuel lo hi).2 = some (Except.error e) →
      e = Error.notFound ∧
      (∀ p ∈ (search_go file t fuel lo hi).1,
        readLE32 file (get_middle_offset p.1 p.2) ≠ t) ∧
      ∃ p ∈ (search_go file t fuel lo hi).1, p.2 - p.1 = INDEX_LEN) ∧
    (hi - lo = INDEX_LEN → t ≠ readLE32 file (get_middle_offset lo hi) →
      0 < fuel →
      (search_go file t fuel lo hi).2 = some (Except.error Error.notFound)) ∧
    (t = readLE32 file (get_middle_offset lo hi) → 0 < fuel →
      (search_go file t fuel lo hi).2 =
        some (Except.ok (read_u24 file (get_middle_offset lo hi + 4)))) :=
  ⟨fun off h => search_go_ok file (convert_ipv4_to_u32 ip) fuel lo hi off h,
   fun e h => search_go_err file (convert_ipv4_to_u32 ip) fuel lo hi e h,
   fun h7 hne hf => search_go_conv file (convert_ipv4_to_u32 ip) fuel lo hi h7 hne hf,
   fun heq hf => search_go_match file (convert_ipv4_to_u32 ip) fuel lo hi heq hf⟩

/-- C9: starting from the full table bounds of a well-formed header,
every interval the search visits stays inside `[start, end]` with both
bounds at entry-aligned offsets `start + 7k`, so every probe reads at an
entry-aligned offset inside the index table. -/
theorem search_probes_entry_aligned (file : List Nat) (t fuel : Nat)
    (h : Header) (hdvd : INDEX_LEN ∣ h.end_ - h.start)
    (hse : h.start ≤ h.end_) :
    ∀ p ∈ (search_go file t fuel h.start h.end_).1,
      h.start ≤ p.1 ∧ p.1 ≤ p.2 ∧ p.2 ≤ h.end_ ∧
      (∃ k, p.1 = h.start + INDEX_LEN * k) ∧
      (∃ k, p.2 = h.start + INDEX_LEN * k) ∧
      h.start ≤ get_middle_offset p.1 p.2 ∧
      get_middle_offset p.1 p.2 ≤ h.end_ ∧
      (∃ k, get_middle_offset p.1 p.2 = h.start + INDEX_LEN * k) :=
  search_go_probes file t h.start h.end_ fuel h.start h.end_
    (Nat.le_refl _) hse (Nat.le_refl _) (by simp) hdvd

/-- C3 (amended to tables with at least two entries): with fuel
`searchFuel` = ceil(log2(entryCount)) + 1 the search loop returns a
result (so it exits within that many iterations), and on every narrowing
step the interval width strictly decreases. -/
theorem search_terminates_log_bound (db : IPDB) (ip : Ipv4Addr)
    (hdvd : INDEX_LEN ∣ db.header.end_ - db.header.start)
    (hlt : db.header.start < db.header.end_) :
    (∃ r, search_index db ip = some r) ∧
    (∀ lo hi : Nat, lo < hi → INDEX_LEN ∣ hi - lo → hi - lo ≠ INDEX_LEN →
      hi - get_middle_offset lo hi < hi - lo ∧
      get_middle_offset lo hi - lo < hi - lo) := by
  constructor
  · apply search_go_terminates db.file (convert_ipv4_to_u32 ip)
      (searchFuel db.header) db.header.start db.header.end_ hlt hdvd
    have hmono := Nat.clog_mono_right 2
      (show (db.header.end_ - db.header.start) / INDEX_LEN ≤
          (db.header.end_ - db.header.start) / INDEX_LEN + 1 by omega)
    simp only [searchFuel]
    omega
  · intro lo hi hlh hdvd2 hne
    obtain ⟨d, hd⟩ := hdvd2
    simp only [INDEX_LEN] at hd hne
    rw [get_middle_offset_eq]
    constructor <;> omega

/-- A degenerate but well-formed single-entry database: the header says
start = end = 8, and the single entry's stored address (4 times byte 9)
is not the searched target. -/
def fileB : List Nat := [8, 0, 0, 0, 8, 0, 0, 0, 9, 9, 9, 9, 0, 0, 0]

/-- On the degenerate table the narrowing assignments do not move the
bounds, so the loop never returns, whatever the fuel. -/
theorem search_go_fileB_stuck (fuel : Nat) :
    (search_go fileB 0 fuel 8 8).2 = none := by
  induction fuel with
  | zero => rfl
  | succ fuel ih =>
    rw [search_go_succ]
    norm_num [show get_middle_offset 8 8 = 8 from rfl,
      show readLE32 fileB 8 = 151587081 from rfl, INDEX_LEN]
    exact ih

/-- Counterexample to C3 as stated: the single-entry table with
start = end = 8 is well-formed (0 is a multiple of 7, start ≤ end) and
entryCount = 1, so the claimed bound allows ceil(log2 1) + 1 = 1
iteration; yet the search has produced no result after 1 and after 50
iterations, and `search_index` (which runs exactly the claimed number of
iterations) yields none. -/
theorem search_nonterminating_counterexample :
    (search_go fileB 0 1 8 8).2 = none ∧
    (search_go fileB 0 50 8 8).2 = none ∧
    search_index ⟨fileB, ⟨8, 8⟩, 0⟩ ⟨0, 0, 0, 0⟩ = none ∧
    INDEX_LEN ∣ (8 - 8 : Nat) ∧ (8 : Nat) ≤ 8 := by
  refine ⟨search_go_fileB_stuck 1, search_go_fileB_stuck 50, ?_, ⟨0, rfl⟩,
    Nat.le_refl 8⟩
  show (search_go fileB (convert_ipv4_to_u32 ⟨0, 0, 0, 0⟩)
    (searchFuel ⟨8, 8⟩) 8 8).2 = none
  have hc : convert_ipv4_to_u32 ⟨0, 0, 0, 0⟩ = 0 := by decide
  rw [hc]
  exact search_go_fileB_stuck _

/-- A well-formed two-entry test database: header start = 8, end = 15;
index entries (address 1, record 22) and (address 2, record 30). -/
def fileA : List Nat :=
  [8, 0, 0, 0, 15, 0, 0, 0,
   1, 0, 0, 0, 22, 0, 0,
   2, 0, 0, 0, 30, 0, 0,
   0, 0]

/-- Witness for C1: searching the two-entry database for address value 1
succeeds with offset 22, coming from a probed entry that matches. -/
theorem search_index_exact_match_only_witness :
    ∃ p ∈ (search_go fileA (convert_ipv4_to_u32 ⟨1, 0, 0, 0⟩) 2 8 15).1,
      readLE32 fileA (get_middle_offset p.1 p.2) = convert_ipv4_to_u32 ⟨1, 0, 0, 0⟩ ∧
      22 = read_u24 fileA (get_middle_offset p.1 p.2 + 4) :=
  (search_index_exact_match_only fileA ⟨1, 0, 0, 0⟩ 2 8 15).1 22 (by decide)

/-- Witness for C9: the interval (8, 15) visited on the two-entry
database satisfies the alignment invariant. -/
theorem search_probes_entry_aligned_witness :
    (8 : Nat) ≤ 8 ∧ (8 : Nat) ≤ 15 ∧ (15 : Nat) ≤ 15 ∧
    (∃ k, (8 : Nat) = 8 + INDEX_LEN * k) ∧
    (∃ k, (15 : Nat) = 8 + INDEX_LEN * k) ∧
    (8 : Nat) ≤ get_middle_offset 8 15 ∧
    get_middle_offset 8 15 ≤ 15 ∧
    (∃ k, get_middle_offset 8 15 = 8 + INDEX_LEN * k) :=
  search_probes_entry_aligned fileA 2 2 ⟨8, 15⟩ ⟨1, rfl⟩ (by norm_num)
    (8, 15) (by decide)

/-- Witness for C3 on the two-entry database. -/
theorem search_terminates_log_bound_witness :
    (∃ r, search_index ⟨fileA, ⟨8, 15⟩, 0⟩ ⟨1, 0, 0, 0⟩ = some r) ∧
    (∀ lo hi : Nat, lo < hi → INDEX_LEN ∣ hi - lo → hi - lo ≠ INDEX_LEN →
      hi - get_middle_offset lo hi < hi - lo ∧
      get_middle_offset lo hi - lo < hi - lo) :=
  search_terminates_log_bound ⟨fileA, ⟨8, 15⟩, 0⟩ ⟨1, 0, 0, 0⟩ ⟨1, rfl⟩
    (by norm_num)

/-- Witness for C10: the concrete offset 22 returned by a successful
search is below 2^24. -/
theorem decoded_offsets_below_2pow24_witness : (22 : Nat) < 16777216 :=
  decoded_offsets_below_2pow24.2.2.1 fileA 1 2 8 15 22 (by decide)

/-- C2: the record decoder resolves country and area origin exactly per
the spec's mode table, for every file and record offset. -/
theorem get_content_matches_mode_table (file : List Nat) (offset : Nat) :
    get_content file offset = decodeRecordSpec file offset := by
  simp only [get_content, decodeRecordSpec, read_mode]
  generalize byteAt file (offset + 4) = b
  rcases b with _ | _ | _ | b
  · rfl
  · generalize byteAt file (read_u24 file (offset + 5)) = c
    rcases c with _ | _ | _ | c <;> rfl
  · rfl
  · rfl

/-- C4: area resolution fails (with the error naming `offset + 1`, the
position of the offending pointer) exactly when the probed mode byte is
1 or 2 and the following 24-bit pointer is zero; with a non-zero pointer
the area is the string at the pointer, and for any other mode byte it is
the string at the origin itself. -/
theorem read_area_corrupt_iff_zero_pointer (file : List Nat) (offset : Nat) :
    ((∃ e, read_area file offset = Except.error e) ↔
      ((byteAt file offset = 1 ∨ byteAt file offset = 2) ∧
        read_u24 file (offset + 1) = 0)) ∧
    (∀ e, read_area file offset = Except.error e →
      e = Error.wrongContent (offset + 1)) ∧
    ((byteAt file offset = 1 ∨ byteAt file offset = 2) →
      read_u24 file (offset + 1) ≠ 0 →
      read_area file offset =
        Except.ok (read_string file (read_u24 file (offset + 1)))) ∧
    (byteAt file offset ≠ 1 → byteAt file offset ≠ 2 →
      read_area file offset = Except.ok (read_string file offset)) := by
  simp only [read_area, read_mode]
  generalize byteAt file offset = b
  rcases b with _ | _ | _ | b
  · simp [Mode.fromByte]
  · by_cases hz : read_u24 file (offset + 1) = 0 <;>
      simp [Mode.fromByte, hz]
  · by_cases hz : read_u24 file (offset + 1) = 0 <;>
      simp [Mode.fromByte, hz]
  · simp [Mode.fromByte]

/-- A record region for exercising `read_area`: at offset 0 the mode
byte 1 is followed by the zero pointer; at offset 4 the mode byte 1 is
followed by a pointer to the string at offset 8. -/
def fileC : List Nat := [1, 0, 0, 0, 1, 8, 0, 0, 65, 66, 0]

/-- Witness for C4: the zero pointer behind mode byte 1 fails naming
offset 1; a non-zero pointer resolves to the string it points at. -/
theorem read_area_corrupt_iff_zero_pointer_witness :
    (∃ e, read_area fileC 0 = Except.error e) ∧
    read_area fileC 4 = Except.ok (read_string fileC (read_u24 fileC 5)) ∧
    (∀ e, read_area fileC 0 = Except.error e →
      e = Error.wrongContent 1) :=
  ⟨(read_area_corrupt_iff_zero_pointer fileC 0).1.mpr
      ⟨Or.inl (by decide), by decide⟩,
   (read_area_corrupt_iff_zero_pointer fileC 4).2.2.1
      (Or.inl (by decide)) (by decide),
   fun e he => (read_area_corrupt_iff_zero_pointer fileC 0).2.1 e he⟩

theorem iterSteps_file_header (db : IPDB) (k : Nat) :
    (iterSteps db k).file = db.file ∧ (iterSteps db k).header = db.header := by
  induction k with
  | zero => exact ⟨rfl, rfl⟩
  | succ k ih =>
    simp only [iterSteps, iter_next]
    exact ih

/-- C5: starting from a fresh handle over a well-formed database whose
file covers the index table, `iter_init` then `(end - start)/7 + 1`
calls of `iter_next` walk the cursor across exactly the table's entries:
`iter_has_next` is true before each of those calls and becomes false
right after the last one; and in every state `iter_has_next` is false
exactly at `position = end + 7`. -/
theorem iteration_yields_entry_count (db : IPDB) (h0 : db.position = 0)
    (hdvd : INDEX_LEN ∣ db.header.end_ - db.header.start)
    (hse : db.header.start ≤ db.header.end_)
    (hlen : db.header.end_ + INDEX_LEN ≤ db.file.length) :
    (∀ k, k < (db.header.end_ - db.header.start) / INDEX_LEN + 1 →
      iter_has_next (iterSteps (iter_init db) k) = true) ∧
    iter_has_next
      (iterSteps (iter_init db)
        ((db.header.end_ - db.header.start) / INDEX_LEN + 1)) = false ∧
    (∀ st : IPDB, iter_has_next st = false ↔
      st.position = st.header.end_ + INDEX_LEN) := by
  obtain ⟨d, hd⟩ := hdvd
  have hiff : ∀ st : IPDB, iter_has_next st = false ↔
      st.position = st.header.end_ + INDEX_LEN := by
    intro st
    by_cases hp : st.position = st.header.end_ + INDEX_LEN
    · simp [iter_has_next, hp]
    · simp [iter_has_next, hp]
  have hfields : ∀ k, (iterSteps (iter_init db) k).file = db.file ∧
      (iterSteps (iter_init db) k).header = db.header := by
    intro k
    have h1 := iterSteps_file_header (iter_init db) k
    have h2 : (iter_init db).file = db.file ∧ (iter_init db).header = db.header := by
      simp only [iter_init]
      split_ifs
      all_goals exact ⟨rfl, rfl⟩
    exact ⟨h2.1 ▸ h1.1, h2.2 ▸ h1.2⟩
  have hinit : (iter_init db).position = db.header.start := by
    simp [iter_init, h0]
  have hpos : ∀ k, k ≤ d + 1 →
      (iterSteps (iter_init db) k).position =
        db.header.start + INDEX_LEN * k := by
    intro k
    induction k with
    | zero => intro _; simpa using hinit
    | succ k ih =>
      intro hk
      have hp := ih (by omega)
      simp only [iterSteps, iter_next]
      rw [(hfields k).1, hp]
      have hbr : bytesRead db.file (db.header.start + INDEX_LEN * k) INDEX_LEN
          = INDEX_LEN := by
        simp only [bytesRead, INDEX_LEN] at *
        omega
      rw [hbr]
      simp only [INDEX_LEN]
      omega
  have hN : (db.header.end_ - db.header.start) / INDEX_LEN + 1 = d + 1 := by
    simp only [INDEX_LEN] at *
    omega
  refine ⟨?_, ?_, hiff⟩
  · intro k hk
    rw [hN] at hk
    have hp := hpos k (by omega)
    by_contra hfalse
    have hne : iter_has_next (iterSteps (iter_init db) k) = false := by
      cases hx : iter_has_next (iterSteps (iter_init db) k)
      · rfl
      · exact absurd hx hfalse
    have := (hiff _).mp hne
    rw [hp, (hfields k).2] at this
    simp only [INDEX_LEN] at this hd
    omega
  · rw [hN]
    apply (hiff _).mpr
    rw [hpos (d + 1) (Nat.le_refl _), (hfields (d + 1)).2]
    simp only [INDEX_LEN] at *
    omega

/-- Witness for C5 on the two-entry database. -/
theorem iteration_yields_entry_count_witness :
    (∀ k, k < 2 →
      iter_has_next (iterSteps (iter_init ⟨fileA, ⟨8, 15⟩, 0⟩) k) = true) ∧
    iter_has_next (iterSteps (iter_init ⟨fileA, ⟨8, 15⟩, 0⟩) 2) = false ∧
    (∀ st : IPDB, iter_has_next st = false ↔
      st.position = st.header.end_ + INDEX_LEN) :=
  iteration_yields_entry_count ⟨fileA, ⟨8, 15⟩, 0⟩ rfl ⟨1, rfl⟩
    (by norm_num) (by decide)

theorem byteAt_readBuf (file : List Nat) (off n i : Nat) (hin : i < n) :
    byteAt (readBuf file off n) i = byteAt file (off + i) := by
  simp only [byteAt, readBuf, List.getD_eq_getElem?_getD]
  by_cases hlt : i < ((file.drop off).take n).length
  · rw [List.getElem?_append_left hlt, List.getElem?_take_of_lt hin,
      List.getElem?_drop]
  · rw [List.getElem?_append_right (Nat.le_of_not_lt hlt),
      List.getElem?_replicate]
    simp only [List.length_take, List.length_drop] at hlt
    have hnone : file[off + i]? = none := by
      apply List.getElem?_eq_none
      omega
    rw [hnone]
    have hif : i - ((file.drop off).take n).length <
        n - ((file.drop off).take n).length := by
      simp only [List.length_take, List.length_drop]
      omega
    rw [if_pos hif]
    rfl

/-- C6 (amended): opening never fails for lack of header bytes.  The
read buffer is zero-initialised, so `Header::decode` always sees 8 bytes
and a handle is always produced, its header decoded from the zero-padded
buffer; when the file does hold 8 bytes this is exactly
`start = readLE32(bytes[0..4])`, `end = readLE32(bytes[4..8])`. -/
theorem new_total_header_decode (file : List Nat) :
    IPDB.new file =
      some ⟨file, ⟨readLE32 (readBuf file 0 8) 0,
        readLE32 (readBuf file 0 8) 4⟩, 0⟩ ∧
    (8 ≤ file.length →
      IPDB.new file = some ⟨file, ⟨readLE32 file 0, readLE32 file 4⟩, 0⟩) := by
  have hlen : (readBuf file 0 8).length = 8 := by
    simp only [readBuf, List.length_append, List.length_take,
      List.length_replicate, List.length_drop]
    omega
  constructor
  · simp [IPDB.new, Header.decode, hlen]
  · intro h8
    have hb : ∀ i, i < 8 → byteAt (readBuf file 0 8) i = byteAt file i := by
      intro i hi
      rw [byteAt_readBuf file 0 8 i hi, Nat.zero_add]
    have e0 : readLE32 (readBuf file 0 8) 0 = readLE32 file 0 := by
      simp only [readLE32, Nat.zero_add]
      rw [hb 0 (by norm_num), hb 1 (by norm_num), hb 2 (by norm_num),
        hb 3 (by norm_num)]
    have e4 : readLE32 (readBuf file 0 8) 4 = readLE32 file 4 := by
      simp only [readLE32]
      rw [hb 4 (by norm_num), hb 5 (by norm_num), hb 6 (by norm_num),
        hb 7 (by norm_num)]
    simp [IPDB.new, Header.decode, hlen, e0, e4]

/-- Counterexample to C6 as stated: the 3-byte file opens successfully
and produces a handle (header decoded from the zero-padded buffer)
instead of failing. -/
theorem new_succeeds_on_short_file :
    IPDB.new [1, 2, 3] = some ⟨[1, 2, 3], ⟨197121, 0⟩, 0⟩ ∧
    ([1, 2, 3] : List Nat).length < 8 := by
  constructor
  · rfl
  · norm_num

/-- Witness for the amended C6 with a full 8-byte header present. -/
theorem new_total_header_decode_witness :
    IPDB.new fileB = some ⟨fileB, ⟨readLE32 fileB 0, readLE32 fileB 4⟩, 0⟩ :=
  (new_total_header_decode fileB).2 (by norm_num [fileB])

/-- C7: `find` leaves the handle unchanged, its header and iterator
cursor `position` in particular, and a second `find` on the returned
handle yields the same result as the first call: the result is a
function of the immutable file bytes and header only. -/
theorem find_preserves_handle_state (db : IPDB) (ip : Ipv4Addr) :
    (db.find ip).1.header = db.header ∧
    (db.find ip).1.position = db.position ∧
    (db.find ip).1 = db ∧
    ((db.find ip).1.find ip).2 = (db.find ip).2 :=
  ⟨rfl, rfl, rfl, rfl⟩
